import Mathlib

/-!
Verification development for the bpfink core (`pkg/fim.go`, `pkg/consumers.go`).

The Go code is shallowly embedded: the two `sync.Map` views of the watch table
become association lists, kernel-side effects (stat lookups, BPF map
update/delete outcomes, `/proc` command-line reads) become explicit inputs, and
the per-record event-loop body becomes a pure function returning the kernel
delete calls, the emitted events and the number of errors logged.
-/

/- ### Association-list model of `sync.Map`

`mapping : sync.Map` (uint64 → string) and `reverse : sync.Map`
(string → uint64) are modelled as association lists with at most one entry per
key: `Store` overwrites, `Load` looks up, `Delete` removes. -/

def loadAssoc {α β : Type} [DecidableEq α] (k : α) : List (α × β) → Option β
  | [] => none
  | e :: rest => if e.1 = k then some e.2 else loadAssoc k rest

def deleteAssoc {α β : Type} [DecidableEq α] (k : α) : List (α × β) → List (α × β)
  | [] => []
  | e :: rest => if e.1 = k then deleteAssoc k rest else e :: deleteAssoc k rest

def storeAssoc {α β : Type} [DecidableEq α] (k : α) (v : β) (m : List (α × β)) :
    List (α × β) :=
  (k, v) :: deleteAssoc k m

theorem loadAssoc_mem {α β : Type} [DecidableEq α] {k : α} {v : β} :
    ∀ {m : List (α × β)}, loadAssoc k m = some v → (k, v) ∈ m := by
  intro m
  induction m with
  | nil => intro h; simp [loadAssoc] at h
  | cons e rest ih =>
    obtain ⟨a, b⟩ := e
    intro h
    simp only [loadAssoc] at h
    by_cases he : a = k
    · rw [if_pos he] at h
      cases h
      subst he
      exact List.mem_cons_self _ _
    · rw [if_neg he] at h
      exact List.mem_cons_of_mem _ (ih h)

theorem mem_deleteAssoc {α β : Type} [DecidableEq α] {k : α} {e : α × β} :
    ∀ {m : List (α × β)}, e ∈ deleteAssoc k m ↔ e ∈ m ∧ e.1 ≠ k := by
  intro m
  induction m with
  | nil => simp [deleteAssoc]
  | cons a rest ih =>
    unfold deleteAssoc
    by_cases ha : a.1 = k
    · rw [if_pos ha, ih]
      constructor
      · rintro ⟨h1, h2⟩
        exact ⟨List.mem_cons_of_mem _ h1, h2⟩
      · rintro ⟨h1, h2⟩
        rcases List.mem_cons.mp h1 with rfl | h1
        · exact absurd ha h2
        · exact ⟨h1, h2⟩
    · rw [if_neg ha]
      constructor
      · intro h
        rcases List.mem_cons.mp h with rfl | h
        · exact ⟨List.mem_cons_self _ _, ha⟩
        · obtain ⟨h1, h2⟩ := ih.mp h
          exact ⟨List.mem_cons_of_mem _ h1, h2⟩
      · rintro ⟨h1, h2⟩
        rcases List.mem_cons.mp h1 with rfl | h1
        · exact List.mem_cons_self _ _
        · exact List.mem_cons_of_mem _ (ih.mpr ⟨h1, h2⟩)

theorem loadAssoc_deleteAssoc_self {α β : Type} [DecidableEq α] (k : α) :
    ∀ (m : List (α × β)), loadAssoc k (deleteAssoc k m) = none := by
  intro m
  induction m with
  | nil => rfl
  | cons a rest ih =>
    simp only [deleteAssoc]
    by_cases ha : a.1 = k
    · rw [if_pos ha]; exact ih
    · rw [if_neg ha]
      simp only [loadAssoc]
      rw [if_neg ha]
      exact ih

theorem loadAssoc_deleteAssoc_ne {α β : Type} [DecidableEq α] {k k2 : α}
    (h : k ≠ k2) : ∀ (m : List (α × β)), loadAssoc k (deleteAssoc k2 m) = loadAssoc k m := by
  intro m
  induction m with
  | nil => rfl
  | cons a rest ih =>
    simp only [deleteAssoc, loadAssoc]
    by_cases ha : a.1 = k2
    · rw [if_pos ha]
      rw [if_neg (by rw [ha]; exact fun hc => h hc.symm)]
      exact ih
    · rw [if_neg ha]
      simp only [loadAssoc]
      by_cases hk : a.1 = k
      · rw [if_pos hk, if_pos hk]
      · rw [if_neg hk, if_neg hk]
        exact ih

theorem loadAssoc_storeAssoc_self {α β : Type} [DecidableEq α] (k : α) (v : β)
    (m : List (α × β)) : loadAssoc k (storeAssoc k v m) = some v := by
  simp [storeAssoc, loadAssoc]

theorem loadAssoc_storeAssoc_ne {α β : Type} [DecidableEq α] {k k2 : α}
    (h : k ≠ k2) (v : β) (m : List (α × β)) :
    loadAssoc k (storeAssoc k2 v m) = loadAssoc k m := by
  simp only [storeAssoc, loadAssoc]
  rw [if_neg (fun hc => h hc.symm)]
  exact loadAssoc_deleteAssoc_ne h m

theorem mem_storeAssoc {α β : Type} [DecidableEq α] {k : α} {v : β}
    {e : α × β} {m : List (α × β)} :
    e ∈ storeAssoc k v m ↔ e = (k, v) ∨ (e ∈ m ∧ e.1 ≠ k) := by
  unfold storeAssoc
  rw [List.mem_cons, mem_deleteAssoc]

/- ### Watch table (`FIM` in `pkg/fim.go`)

The `FIM` struct carries the two `sync.Map` views plus the kernel-side rules
table (`RulesTable`, modelled as the set of registered keys).  Kernel effects
that can fail (stat, `UpdateElement`, `DeleteElement`) take their outcome as an
explicit input. -/

instance {ε α : Type} [DecidableEq ε] [DecidableEq α] : DecidableEq (Except ε α) :=
  fun x y =>
    match x, y with
    | .error a, .error b => decidable_of_iff (a = b) (by simp)
    | .ok a, .ok b => decidable_of_iff (a = b) (by simp)
    | .error _, .ok _ => isFalse (by simp)
    | .ok _, .error _ => isFalse (by simp)

/-- The relevant fields of `syscall.Stat_t` read by `NewKey`. -/
structure Stat_t where
  Dev : Nat
  Ino : Nat
deriving DecidableEq

/-- `NewKey` (`fim.go:64-70`): takes the outcome of `syscall.Stat` (errno on
failure) and generates the bpf map key — the file's inode number. -/
def NewKey (statRes : Except Nat Stat_t) : Except Nat Nat :=
  match statRes with
  | .error errno => .error errno
  | .ok fstat => .ok fstat.Ino

/-- Errors surfaced by the watch-table operations. -/
inductive FIMErr where
  /-- `NewKey` failed: the `syscall.Stat` errno. -/
  | stat (errno : Nat)
  /-- `Module.UpdateElement` failed in `Add`. -/
  | kernelUpdate
  /-- `Remove`: `reverse.Load` found no entry ("error getting key"). -/
  | getKey
  /-- `Remove`: `Module.DeleteElement` failed. -/
  | kernelDelete
deriving DecidableEq

/-- The `FIM` struct state: `mapping` (uint64 inode → path), `reverse`
(path → uint64 inode), and the set of keys in the kernel rules table. -/
structure FIM where
  mapping : List (Nat × String)
  reverse : List (String × Nat)
  kernel : List Nat
deriving DecidableEq

/-- The maps of a freshly constructed `FIM` (`InitFIM`): both empty. -/
def initFIM : FIM := ⟨[], [], []⟩

/-- `FIM.Add` (`fim.go:292-307`): derive the key via `NewKey`; on stat failure
return the error untouched; push `key → 1` to the kernel rules table
(`updOk` is the `UpdateElement` outcome); on success store both directions. -/
def FIM.Add (f : FIM) (name : String) (statRes : Except Nat Stat_t)
    (updOk : Bool) : FIM × Except FIMErr Unit :=
  match NewKey statRes with
  | .error errno => (f, .error (.stat errno))
  | .ok key =>
    if updOk then
      (⟨storeAssoc key name f.mapping, storeAssoc name key f.reverse,
        if key ∈ f.kernel then f.kernel else key :: f.kernel⟩, .ok ())
    else (f, .error .kernelUpdate)

/-- `FIM.Remove` (`fim.go:310-339`): load the key from `reverse` (error if
absent); delete it from the kernel rules table (`delOk` is the
`DeleteElement` outcome — on failure the error is returned with no further
action); then reload the key (`id`) and delete both local entries. -/
def FIM.Remove (f : FIM) (name : String) (delOk : Bool) :
    FIM × Except FIMErr Unit :=
  match loadAssoc name f.reverse with
  | none => (f, .error .getKey)
  | some uintKey =>
    if delOk then
      let id := loadAssoc name f.reverse
      let mapping2 := match id with
        | some k => deleteAssoc k f.mapping
        | none => f.mapping
      (⟨mapping2, deleteAssoc name f.reverse,
        f.kernel.filter (fun k => k ≠ uintKey)⟩, .ok ())
    else (f, .error .kernelDelete)

/- ### Sequences of watch-table operations (for the Watch Table invariant) -/

/-- One external watch-table operation together with the kernel-side outcomes
it observes. -/
inductive WOp where
  | add (name : String) (statRes : Except Nat Stat_t) (updOk : Bool)
  | remove (name : String) (delOk : Bool)

/-- Run a sequence of `Add`/`Remove` operations, discarding the returned
errors (callers decide what to do with them; the state evolves regardless). -/
def runOps (f : FIM) : List WOp → FIM
  | [] => f
  | op :: rest =>
    match op with
    | .add name statRes updOk => runOps (FIM.Add f name statRes updOk).1 rest
    | .remove name delOk => runOps (FIM.Remove f name delOk).1 rest

/-- The (path, inode) pairs of the successful-stat adds in a sequence. -/
def addPairs : List WOp → List (String × Nat)
  | [] => []
  | .add name (.ok s) _ :: rest => (name, s.Ino) :: addPairs rest
  | .add _ (.error _) _ :: rest => addPairs rest
  | .remove _ _ :: rest => addPairs rest

/-- Mutual consistency of the two views: every `mapping` entry is confirmed by
a `reverse` lookup and vice versa. -/
@[reducible] def Consistent (f : FIM) : Prop :=
  (∀ e ∈ f.mapping, loadAssoc e.2 f.reverse = some e.1) ∧
  (∀ e ∈ f.reverse, loadAssoc e.2 f.mapping = some e.1)

/-- A set of (path, key) pairs is compatible when it is a partial bijection:
two pairs agree on the path exactly when they agree on the key. -/
@[reducible] def Compat (A : List (String × Nat)) : Prop :=
  ∀ a ∈ A, ∀ b ∈ A, (a.1 = b.1 ↔ a.2 = b.2)

/- ### Raw event codec (`rawEvent`, `Encode`, `binary.Read` in `pkg/fim.go`)

`binary.Write`/`binary.Read` with `binary.LittleEndian` serialize the struct
fields in declaration order, each as a fixed-width little-endian integer.
Bytes are `Nat`s below 256. -/

/-- Little-endian byte encoding of a natural number in `k` bytes. -/
def natToLE : Nat → Nat → List Nat
  | 0, _ => []
  | k + 1, n => n % 256 :: natToLE k (n / 256)

/-- Value of a little-endian byte list. -/
def leVal : List Nat → Nat
  | [] => 0
  | b :: rest => b + 256 * leVal rest

/-- Two's-complement little-endian encoding of an `int32`. -/
def i32LE (m : Int) : List Nat := natToLE 4 (m % 4294967296).toNat

/-- Decode 4 little-endian bytes as an `int32` (two's complement). -/
def decodeI32 (bs : List Nat) : Int :=
  if leVal bs < 2147483648 then (leVal bs : Int)
  else (leVal bs : Int) - 4294967296

/-- `rawEvent` (`fim.go:40-48`): the wire record sent by the kernel probe.
`Mode` is `int32`; `PID`/`UID`/`Size` are `uint32`; `Inode`/`Device` are
`uint64`; `Com` is `[16]byte` (`taskComLen = 16`). -/
structure rawEvent where
  Mode : Int
  PID : Nat
  UID : Nat
  Size : Nat
  Inode : Nat
  Device : Nat
  Com : List Nat
deriving DecidableEq

/-- Field values within the Go types' ranges: `int32`, three `uint32`s, two
`uint64`s, and a 16-entry byte array. -/
@[reducible] def rawEvent.wf (e : rawEvent) : Prop :=
  -2147483648 ≤ e.Mode ∧ e.Mode < 2147483648 ∧
  e.PID < 4294967296 ∧ e.UID < 4294967296 ∧ e.Size < 4294967296 ∧
  e.Inode < 18446744073709551616 ∧ e.Device < 18446744073709551616 ∧
  e.Com.length = 16 ∧ ∀ b ∈ e.Com, b < 256

/-- `Encode` (`fim.go:73-77`) applied to a `rawEvent`: `binary.Write` with the
little-endian byte order emits the fields in order
mode(4) pid(4) uid(4) size(4) inode(8) device(8) comm(16). -/
def rawEvent.encode (e : rawEvent) : List Nat :=
  i32LE e.Mode ++ natToLE 4 e.PID ++ natToLE 4 e.UID ++ natToLE 4 e.Size ++
    natToLE 8 e.Inode ++ natToLE 8 e.Device ++ e.Com

/-- `binary.Read` into a `rawEvent` (`fim.go:216-221`): consume the 48-byte
fixed little-endian layout sequentially; fail if the buffer is short. -/
def rawEvent.decode (bs : List Nat) : Option rawEvent :=
  if bs.length < 48 then none
  else
    let modeB := bs.take 4
    let r1 := bs.drop 4
    let pidB := r1.take 4
    let r2 := r1.drop 4
    let uidB := r2.take 4
    let r3 := r2.drop 4
    let sizeB := r3.take 4
    let r4 := r3.drop 4
    let inodeB := r4.take 8
    let r5 := r4.drop 8
    let devB := r5.take 8
    let r6 := r5.drop 8
    let comB := r6.take 16
    some ⟨decodeI32 modeB, leVal pidB, leVal uidB, leVal sizeB,
      leVal inodeB, leVal devB, comB⟩

/- ### Event pipeline: per-record processing (`FIM.start`, `fim.go:211-260`) -/

/-- `Event` (`fim.go:30-39`): the user-facing event.  `Com` is the resolved
command string, held as its byte content (`Go` strings are byte strings). -/
structure Event where
  Mode : Int
  PID : Nat
  UID : Nat
  Size : Nat
  Inode : Nat
  Device : Nat
  Com : List Nat
  Path : String
deriving DecidableEq

/-- The Go fallback loop over `e.Com` (`fim.go:224-231`): `comLen` starts at 0
and is set to the index of the first zero byte, if any. -/
def comLenAux : List Nat → Nat → Option Nat
  | [], _ => none
  | b :: rest, i => if b = 0 then some i else comLenAux rest (i + 1)

/-- `string(e.Com[:comLen])` (`fim.go:232`): the prefix of the raw comm field
up to the first zero byte, or the empty prefix when there is none. -/
def comFallback (com : List Nat) : List Nat :=
  com.take (match comLenAux com 0 with
    | some i => i
    | none => 0)

/-- Observable outcome of processing one decoded record. -/
structure ProcessResult where
  kernelDeletes : List Nat
  events : List Event
  errorsLogged : Nat
deriving DecidableEq

/-- The body of the event loop for one successfully decoded record
(`fim.go:222-254`): resolve the command line (falling back to the comm bytes
when `getCMDLine` yields the empty string), then resolve `Inode` via
`mapping`; if absent, log the stale key, delete the kernel-side entry
(`delOk` its outcome — a failure logs a second error) and drop the record;
otherwise emit one `Event`.  `procCmdline` is the `getCMDLine` result. -/
def FIM.processEvent (f : FIM) (e : rawEvent) (procCmdline : List Nat)
    (delOk : Bool) : ProcessResult :=
  let cmdline := if procCmdline = [] then comFallback e.Com else procCmdline
  match loadAssoc e.Inode f.mapping with
  | none => ⟨[e.Inode], [], if delOk then 1 else 2⟩
  | some spath =>
    ⟨[], [⟨e.Mode, e.PID, e.UID, e.Size, e.Inode, e.Device, cmdline, spath⟩], 0⟩

/- ### Consumer/state engine (`pkg/consumers.go`) -/

/-- Go `error` values seen by the consumer engine.  `reload` models the
distinguished sentinel; `other` is any other non-nil error. -/
inductive GoErr where
  /-- Modelled from the spec: `ErrReload` (declared outside the provided
  sources) — the reload signal, the one "error" meaning "watch set changed,
  re-register", which receivers must special-case and never treat as a
  fault. -/
  | reload
  /-- Any other non-nil error, tagged by an arbitrary code. -/
  | other (code : Nat)
deriving DecidableEq

/-- The outcome of `State.Created()`/`State.Changed()` on a parsed state, as
seen by the generic `BaseConsumer` lifecycle. -/
structure StateDesc where
  created : Bool
  changed : Bool
deriving DecidableEq

/-- Observable trace of one `Init`/`Consume` call: the actors passed to
`Notify`, whether `Save`/`Teardown` were invoked, and the returned error
(`none` = Go `nil`). -/
structure ConsumerTrace where
  notifyActors : List String
  saveCalled : Bool
  teardownCalled : Bool
  result : Option GoErr
deriving DecidableEq

/-- `BaseConsumer.Init` (`consumers.go:38-56`): `Load`; `Parse`; if the state
was not just created and is changed, `Notify("baseInit")`; `Save`; then
`Teardown`, whose `nil` and `ErrReload` results both yield `nil`.  The
outcomes of `Load`/`Parse`/`Save`/`Teardown` are explicit inputs. -/
def BaseConsumer.Init (loadRes : Option GoErr) (parseRes : Except GoErr StateDesc)
    (saveRes teardownRes : Option GoErr) : ConsumerTrace :=
  match loadRes with
  | some e => ⟨[], false, false, some e⟩
  | none =>
    match parseRes with
    | .error e => ⟨[], false, false, some e⟩
    | .ok st =>
      let actors := if !st.created && st.changed then ["baseInit"] else []
      match saveRes with
      | some e => ⟨actors, true, false, some e⟩
      | none =>
        match teardownRes with
        | none => ⟨actors, true, true, none⟩
        | some GoErr.reload => ⟨actors, true, true, none⟩
        | some e => ⟨actors, true, true, some e⟩

/-- `BaseConsumer.Consume` (`consumers.go:59-74`): `Parse`; if not changed,
return `Teardown()` directly; else `Notify(e.Com)`, `Save` (its failure is
returned), and return `Teardown()`. -/
def BaseConsumer.Consume (parseRes : Except GoErr StateDesc)
    (saveRes teardownRes : Option GoErr) (eCom : String) : ConsumerTrace :=
  match parseRes with
  | .error e => ⟨[], false, false, some e⟩
  | .ok st =>
    if !st.changed then ⟨[], false, true, teardownRes⟩
    else
      match saveRes with
      | some e => ⟨[eCom], true, false, some e⟩
      | none => ⟨[eCom], true, true, teardownRes⟩

/- ### UsersState (`consumers.go:93-173`) -/

/-- `usersState` (`consumers.go:96-99`): the users snapshot (usernames stand
in for the `Users` records) plus the derived include paths. -/
structure usersState where
  users : List String
  includes : List String
deriving DecidableEq

/-- `UsersState` (`consumers.go:101-104`): current and next snapshots. -/
structure UsersState where
  current : usersState
  next : usersState
deriving DecidableEq

/-- Modelled from the spec: `ArrayEqual` (declared outside the provided
sources) — textual equality of the two include-path lists ("if the
include-list differs textually from the previous include-list"). -/
def ArrayEqual (a b : List String) : Bool := a == b

/-- `UsersState.reload` (`consumers.go:137-146`): `nil` when the current and
next include lists are equal, `ErrReload` otherwise. -/
def UsersState.reload (us : UsersState) : Option GoErr :=
  if ArrayEqual us.current.includes us.next.includes then none
  else some GoErr.reload

/-- `UsersState.Teardown` (`consumers.go:149-152`): assign `current = next`,
then return `reload()` evaluated on the updated receiver. -/
def UsersState.Teardown (us : UsersState) : UsersState × Option GoErr :=
  let us2 : UsersState := { us with current := us.next }
  (us2, us2.reload)

/- ### Helper lemmas for the pipeline fallback -/

theorem comLenAux_eq_none (l : List Nat) (h : ∀ b ∈ l, b ≠ 0) :
    ∀ i, comLenAux l i = none := by
  induction l with
  | nil => intro i; rfl
  | cons b rest ih =>
    intro i
    simp only [comLenAux]
    rw [if_neg (h b (List.mem_cons_self _ _))]
    exact ih (fun x hx => h x (List.mem_cons_of_mem _ hx)) _

theorem comFallback_eq_nil (l : List Nat) (h : ∀ b ∈ l, b ≠ 0) :
    comFallback l = [] := by
  unfold comFallback
  rw [comLenAux_eq_none l h 0]
  rfl

/- ### Claim theorems -/

/-- C1: the claim says `Teardown` commits `next` to `current` and returns
`ErrReload` exactly when the new include-list differs from the include-list
current before the call.  The code is wrong: it assigns `current = next`
first, so `reload` always compares the new include-list with itself and
`Teardown` returns `nil` even on the concrete input whose include-lists
differ (and, as the last conjunct shows, on every input). -/
theorem teardown_commits_but_never_signals_reload :
    ArrayEqual ((⟨⟨[], ["a"]⟩, ⟨[], ["b"]⟩⟩ : UsersState).current.includes)
        ((⟨⟨[], ["a"]⟩, ⟨[], ["b"]⟩⟩ : UsersState).next.includes) = false ∧
    (UsersState.Teardown ⟨⟨[], ["a"]⟩, ⟨[], ["b"]⟩⟩).2 = none ∧
    (UsersState.Teardown ⟨⟨[], ["a"]⟩, ⟨[], ["b"]⟩⟩).1.current
      = (⟨⟨[], ["a"]⟩, ⟨[], ["b"]⟩⟩ : UsersState).next ∧
    ∀ us : UsersState, (UsersState.Teardown us).2 = none := by
  refine ⟨by decide, by decide, by decide, ?_⟩
  intro us
  simp [UsersState.Teardown, UsersState.reload, ArrayEqual]

/-- C2 counterexample: on a table watching path "p" with key 5, a `Remove`
whose kernel-side delete fails returns the error but leaves both local
bookkeeping entries in place — contradicting the claim that they are still
removed. -/
theorem remove_kernel_failure_keeps_bookkeeping_cex :
    (FIM.Remove ⟨[(5, "p")], [("p", 5)], [5]⟩ "p" false).2
      = Except.error FIMErr.kernelDelete ∧
    (FIM.Remove ⟨[(5, "p")], [("p", 5)], [5]⟩ "p" false).1.reverse = [("p", 5)] ∧
    (FIM.Remove ⟨[(5, "p")], [("p", 5)], [5]⟩ "p" false).1.mapping = [(5, "p")] := by
  decide

/-- C2 (amended): for a previously added path, if the kernel-side delete
fails, `Remove` returns the error and the local bookkeeping is NOT removed
(the whole state is untouched); both entries are deleted only when the
kernel delete succeeds. -/
theorem remove_kernel_failure_returns_error_state_untouched
    (f : FIM) (name : String) (K : Nat)
    (h : loadAssoc name f.reverse = some K) :
    FIM.Remove f name false = (f, Except.error FIMErr.kernelDelete) ∧
    (FIM.Remove f name true).1.reverse = deleteAssoc name f.reverse ∧
    (FIM.Remove f name true).1.mapping = deleteAssoc K f.mapping := by
  unfold FIM.Remove
  rw [h]
  simp

/-- Witness for C2's amended theorem at the concrete table watching "p". -/
theorem remove_kernel_failure_returns_error_state_untouched_witness :
    loadAssoc "p" (FIM.reverse ⟨[(5, "p")], [("p", 5)], [5]⟩) = some 5 ∧
    (FIM.Remove ⟨[(5, "p")], [("p", 5)], [5]⟩ "p" false
        = (⟨[(5, "p")], [("p", 5)], [5]⟩, Except.error FIMErr.kernelDelete) ∧
      (FIM.Remove ⟨[(5, "p")], [("p", 5)], [5]⟩ "p" true).1.reverse
        = deleteAssoc "p" [("p", 5)] ∧
      (FIM.Remove ⟨[(5, "p")], [("p", 5)], [5]⟩ "p" true).1.mapping
        = deleteAssoc 5 [(5, "p")]) :=
  ⟨by decide,
    remove_kernel_failure_returns_error_state_untouched
      ⟨[(5, "p")], [("p", 5)], [5]⟩ "p" 5 (by decide)⟩

/-- C3 counterexample: `NewKey` reads only `fstat.Ino`, so two stats with
equal inode numbers on different devices yield the SAME key, contradicting
the claim that the key is derived from device+inode with distinct keys per
device. -/
theorem newKey_ignores_device_cex :
    (Stat_t.mk 1 5).Dev ≠ (Stat_t.mk 2 5).Dev ∧
    NewKey (Except.ok ⟨1, 5⟩) = NewKey (Except.ok ⟨2, 5⟩) := by decide

/-- C3 (amended): `Add` derives the kernel key from the file's inode alone
(the device number is ignored, so equal inodes on different devices collide),
and when the stat lookup fails `Add` returns that error with the maps and the
kernel table untouched. -/
theorem add_key_from_inode_only_and_lookup_failure_pure
    (s t : Stat_t) (f : FIM) (name : String) (errno : Nat) (updOk : Bool)
    (h : s.Ino = t.Ino) :
    NewKey (Except.ok s) = Except.ok s.Ino ∧
    NewKey (Except.ok s) = NewKey (Except.ok t) ∧
    FIM.Add f name (Except.error errno) updOk
      = (f, Except.error (FIMErr.stat errno)) := by
  refine ⟨rfl, ?_, rfl⟩
  simp [NewKey, h]

/-- Witness for C3's amended theorem at stats ⟨1, 5⟩ and ⟨2, 5⟩. -/
theorem add_key_from_inode_only_witness :
    (Stat_t.mk 1 5).Ino = (Stat_t.mk 2 5).Ino ∧
    (NewKey (Except.ok ⟨1, 5⟩) = Except.ok (Stat_t.mk 1 5).Ino ∧
      NewKey (Except.ok ⟨1, 5⟩) = NewKey (Except.ok ⟨2, 5⟩) ∧
      FIM.Add initFIM "/etc/passwd" (Except.error 2) true
        = (initFIM, Except.error (FIMErr.stat 2))) :=
  ⟨by decide,
    add_key_from_inode_only_and_lookup_failure_pure ⟨1, 5⟩ ⟨2, 5⟩ initFIM
      "/etc/passwd" 2 true (by decide)⟩

/-- C6: a decoded record whose inode is absent from `mapping` produces
exactly one kernel-side delete call for that key, at least one logged error,
and no `Event` on the output channel. -/
theorem staleKey_one_delete_no_event
    (f : FIM) (e : rawEvent) (pc : List Nat) (delOk : Bool)
    (h : loadAssoc e.Inode f.mapping = none) :
    (FIM.processEvent f e pc delOk).kernelDeletes = [e.Inode] ∧
    (FIM.processEvent f e pc delOk).events = [] ∧
    1 ≤ (FIM.processEvent f e pc delOk).errorsLogged := by
  unfold FIM.processEvent
  rw [h]
  refine ⟨rfl, rfl, ?_⟩
  cases delOk <;> simp

/-- Witness for C6 on the empty table and a concrete record. -/
theorem staleKey_one_delete_no_event_witness :
    loadAssoc (42 : Nat) (FIM.mapping initFIM) = none ∧
    ((FIM.processEvent initFIM ⟨0, 1, 0, 9, 42, 3, [65]⟩ [] true).kernelDeletes
        = [42] ∧
      (FIM.processEvent initFIM ⟨0, 1, 0, 9, 42, 3, [65]⟩ [] true).events = [] ∧
      1 ≤ (FIM.processEvent initFIM ⟨0, 1, 0, 9, 42, 3, [65]⟩ [] true).errorsLogged) :=
  ⟨by decide, staleKey_one_delete_no_event initFIM ⟨0, 1, 0, 9, 42, 3, [65]⟩ [] true
    (by decide)⟩

/-- C7: during `Init` (with `Load` and `Parse` succeeding), a just-created
state is never notified — even when changed — while `Save` still runs; and
`Notify("baseInit")` fires exactly when the state was not just created and is
changed. -/
theorem init_created_suppresses_notify (st : StateDesc) (s t : Option GoErr) :
    (st.created = true →
      (BaseConsumer.Init none (Except.ok st) s t).notifyActors = [] ∧
      (BaseConsumer.Init none (Except.ok st) s t).saveCalled = true) ∧
    ((BaseConsumer.Init none (Except.ok st) s t).notifyActors = ["baseInit"] ↔
      (st.created = false ∧ st.changed = true)) := by
  obtain ⟨c, ch⟩ := st
  cases c <;> cases ch <;> rcases s with _ | se <;> rcases t with _ | te <;>
      try cases te
  all_goals simp [BaseConsumer.Init]

/-- Witness for C7 at a created-and-changed state. -/
theorem init_created_suppresses_notify_witness :
    ((StateDesc.mk true true).created = true →
      (BaseConsumer.Init none (Except.ok ⟨true, true⟩) none none).notifyActors = [] ∧
      (BaseConsumer.Init none (Except.ok ⟨true, true⟩) none none).saveCalled = true) ∧
    ((BaseConsumer.Init none (Except.ok ⟨true, true⟩) none none).notifyActors
        = ["baseInit"] ↔
      ((StateDesc.mk true true).created = false ∧
        (StateDesc.mk true true).changed = true)) :=
  init_created_suppresses_notify ⟨true, true⟩ none none

/-- C8: `Init` treats `nil` and `ErrReload` from the final `Teardown` as
success and returns every other Teardown error; `Load`, `Parse` and `Save`
failures are each returned at once (in particular `Teardown` is not reached
after a `Save` failure). -/
theorem init_reload_is_success_other_errors_fatal (e2 : GoErr) (st : StateDesc)
    (p : Except GoErr StateDesc) (s t : Option GoErr) :
    BaseConsumer.Init (some e2) p s t = ⟨[], false, false, some e2⟩ ∧
    BaseConsumer.Init none (Except.error e2) s t = ⟨[], false, false, some e2⟩ ∧
    ((BaseConsumer.Init none (Except.ok st) (some e2) t).result = some e2 ∧
      (BaseConsumer.Init none (Except.ok st) (some e2) t).teardownCalled = false) ∧
    ((BaseConsumer.Init none (Except.ok st) none t).result = none ↔
      (t = none ∨ t = some GoErr.reload)) ∧
    (∀ er : GoErr, er ≠ GoErr.reload →
      (BaseConsumer.Init none (Except.ok st) none (some er)).result = some er) := by
  refine ⟨rfl, rfl, by simp [BaseConsumer.Init], ?_, ?_⟩
  · rcases t with _ | te
    · simp [BaseConsumer.Init]
    · cases te <;> simp [BaseConsumer.Init]
  · intro er her
    cases er
    · exact absurd rfl her
    · simp [BaseConsumer.Init]

/-- Witness for C8 with a reload-signalling Teardown. -/
theorem init_reload_is_success_witness :
    (BaseConsumer.Init (some (GoErr.other 7)) (Except.ok ⟨false, false⟩) none
        (some GoErr.reload) = ⟨[], false, false, some (GoErr.other 7)⟩ ∧
      BaseConsumer.Init none (Except.error (GoErr.other 7)) none
        (some GoErr.reload) = ⟨[], false, false, some (GoErr.other 7)⟩ ∧
      ((BaseConsumer.Init none (Except.ok ⟨false, false⟩) (some (GoErr.other 7))
          (some GoErr.reload)).result = some (GoErr.other 7) ∧
        (BaseConsumer.Init none (Except.ok ⟨false, false⟩) (some (GoErr.other 7))
          (some GoErr.reload)).teardownCalled = false) ∧
      ((BaseConsumer.Init none (Except.ok ⟨false, false⟩) none
          (some GoErr.reload)).result = none ↔
        (some GoErr.reload = none ∨ some GoErr.reload = some GoErr.reload)) ∧
      (∀ er : GoErr, er ≠ GoErr.reload →
        (BaseConsumer.Init none (Except.ok ⟨false, false⟩) none
          (some er)).result = some er)) :=
  init_reload_is_success_other_errors_fatal (GoErr.other 7) ⟨false, false⟩
    (Except.ok ⟨false, false⟩) none (some GoErr.reload)

/-- C9: when the parsed state is unchanged, `Consume` performs neither
`Notify` nor `Save`, still calls `Teardown` and returns its result unchanged
(so a reload signal is propagated); and `UsersState.Teardown` does commit
`next` over `current`. -/
theorem consume_unchanged_still_teardown (st : StateDesc) (s t : Option GoErr)
    (com : String) (h : st.changed = false) :
    BaseConsumer.Consume (Except.ok st) s t com = ⟨[], false, true, t⟩ ∧
    ∀ us : UsersState, (UsersState.Teardown us).1.current = us.next := by
  refine ⟨?_, fun us => rfl⟩
  simp [BaseConsumer.Consume, h]

/-- Witness for C9 with a reload-signalling Teardown result. -/
theorem consume_unchanged_still_teardown_witness :
    (StateDesc.mk false false).changed = false ∧
    (BaseConsumer.Consume (Except.ok ⟨false, false⟩) none (some GoErr.reload) "vim"
        = ⟨[], false, true, some GoErr.reload⟩ ∧
      ∀ us : UsersState, (UsersState.Teardown us).1.current = us.next) :=
  ⟨by decide,
    consume_unchanged_still_teardown ⟨false, false⟩ none (some GoErr.reload) "vim"
      (by decide)⟩

/-- C10: when `getCMDLine` yields the empty string and the 16-byte comm field
has no zero byte, the fallback takes the prefix up to the first zero byte —
length zero here — so the emitted `Event` carries an empty command name. -/
theorem empty_cmdline_no_zero_byte_empty_com
    (f : FIM) (e : rawEvent) (p : String) (delOk : Bool)
    (h0 : ∀ b ∈ e.Com, b ≠ 0)
    (h1 : loadAssoc e.Inode f.mapping = some p) :
    (FIM.processEvent f e [] delOk).events
      = [⟨e.Mode, e.PID, e.UID, e.Size, e.Inode, e.Device, [], p⟩] := by
  have hcf : comFallback e.Com = [] := comFallback_eq_nil e.Com h0
  unfold FIM.processEvent
  rw [h1]
  simp [hcf]

/-- Witness for C10 on a watched inode with an all-nonzero comm field. -/
theorem empty_cmdline_no_zero_byte_empty_com_witness :
    (∀ b ∈ [65, 66], b ≠ 0) ∧
    loadAssoc (42 : Nat) (FIM.mapping ⟨[(42, "f")], [("f", 42)], [42]⟩)
      = some "f" ∧
    (FIM.processEvent ⟨[(42, "f")], [("f", 42)], [42]⟩
        ⟨0, 1, 0, 9, 42, 3, [65, 66]⟩ [] true).events
      = [⟨0, 1, 0, 9, 42, 3, [], "f"⟩] :=
  ⟨by decide, by decide,
    empty_cmdline_no_zero_byte_empty_com ⟨[(42, "f")], [("f", 42)], [42]⟩
      ⟨0, 1, 0, 9, 42, 3, [65, 66]⟩ "f" true (by decide) (by decide)⟩

/- ### C4: the 48-byte little-endian round trip -/

theorem length_natToLE (k : Nat) : ∀ n, (natToLE k n).length = k := by
  induction k with
  | zero => intro n; rfl
  | succ k ih => intro n; simp [natToLE, ih]

theorem leVal_natToLE (k : Nat) : ∀ n, n < 256 ^ k → leVal (natToLE k n) = n := by
  induction k with
  | zero =>
    intro n h
    norm_num at h
    simp [natToLE, leVal, h]
  | succ k ih =>
    intro n h
    have h2 : n / 256 < 256 ^ k := by
      rw [Nat.div_lt_iff_lt_mul (by norm_num : 0 < 256)]
      calc n < 256 ^ (k + 1) := h
        _ = 256 ^ k * 256 := by rw [pow_succ]
    simp only [natToLE, leVal]
    rw [ih _ h2]
    omega

theorem length_i32LE (m : Int) : (i32LE m).length = 4 := length_natToLE 4 _

theorem decodeI32_i32LE (m : Int) (h1 : -2147483648 ≤ m)
    (h2 : m < 2147483648) : decodeI32 (i32LE m) = m := by
  unfold decodeI32 i32LE
  rw [leVal_natToLE 4 _ (by
    have h256 : (256 : Nat) ^ 4 = 4294967296 := by norm_num
    rw [h256]
    omega)]
  split <;> omega

/-- C4: encoding any in-range `rawEvent` with the little-endian fixed layout
mode(4) pid(4) uid(4) size(4) inode(8) device(8) comm(16) yields a 48-byte
buffer, and decoding that buffer restores the original field values. -/
theorem rawEvent_encode_decode_roundtrip (e : rawEvent) (h : e.wf) :
    (rawEvent.encode e).length = 48 ∧
    rawEvent.decode (rawEvent.encode e) = some e := by
  obtain ⟨h1, h2, h3, h4, h5, h6, h7, h8, h9⟩ := h
  have h32 : (256 : Nat) ^ 4 = 4294967296 := by norm_num
  have h64 : (256 : Nat) ^ 8 = 18446744073709551616 := by norm_num
  have hlen : (rawEvent.encode e).length = 48 := by
    simp [rawEvent.encode, length_natToLE, length_i32LE, h8]
  refine ⟨hlen, ?_⟩
  have t1 : (rawEvent.encode e).take 4 = i32LE e.Mode :=
    List.take_left' (length_i32LE e.Mode)
  have d1 : (rawEvent.encode e).drop 4
      = natToLE 4 e.PID ++ (natToLE 4 e.UID ++ (natToLE 4 e.Size ++
        (natToLE 8 e.Inode ++ (natToLE 8 e.Device ++ e.Com)))) :=
    List.drop_left' (length_i32LE e.Mode)
  have t2 : (natToLE 4 e.PID ++ (natToLE 4 e.UID ++ (natToLE 4 e.Size ++
        (natToLE 8 e.Inode ++ (natToLE 8 e.Device ++ e.Com))))).take 4
      = natToLE 4 e.PID := List.take_left' (length_natToLE 4 e.PID)
  have d2 : (natToLE 4 e.PID ++ (natToLE 4 e.UID ++ (natToLE 4 e.Size ++
        (natToLE 8 e.Inode ++ (natToLE 8 e.Device ++ e.Com))))).drop 4
      = natToLE 4 e.UID ++ (natToLE 4 e.Size ++
        (natToLE 8 e.Inode ++ (natToLE 8 e.Device ++ e.Com))) :=
    List.drop_left' (length_natToLE 4 e.PID)
  have t3 : (natToLE 4 e.UID ++ (natToLE 4 e.Size ++
        (natToLE 8 e.Inode ++ (natToLE 8 e.Device ++ e.Com)))).take 4
      = natToLE 4 e.UID := List.take_left' (length_natToLE 4 e.UID)
  have d3 : (natToLE 4 e.UID ++ (natToLE 4 e.Size ++
        (natToLE 8 e.Inode ++ (natToLE 8 e.Device ++ e.Com)))).drop 4
      = natToLE 4 e.Size ++ (natToLE 8 e.Inode ++ (natToLE 8 e.Device ++ e.Com)) :=
    List.drop_left' (length_natToLE 4 e.UID)
  have t4 : (natToLE 4 e.Size ++
        (natToLE 8 e.Inode ++ (natToLE 8 e.Device ++ e.Com))).take 4
      = natToLE 4 e.Size := List.take_left' (length_natToLE 4 e.Size)
  have d4 : (natToLE 4 e.Size ++
        (natToLE 8 e.Inode ++ (natToLE 8 e.Device ++ e.Com))).drop 4
      = natToLE 8 e.Inode ++ (natToLE 8 e.Device ++ e.Com) :=
    List.drop_left' (length_natToLE 4 e.Size)
  have t5 : (natToLE 8 e.Inode ++ (natToLE 8 e.Device ++ e.Com)).take 8
      = natToLE 8 e.Inode := List.take_left' (length_natToLE 8 e.Inode)
  have d5 : (natToLE 8 e.Inode ++ (natToLE 8 e.Device ++ e.Com)).drop 8
      = natToLE 8 e.Device ++ e.Com :=
    List.drop_left' (length_natToLE 8 e.Inode)
  have t6 : (natToLE 8 e.Device ++ e.Com).take 8 = natToLE 8 e.Device :=
    List.take_left' (length_natToLE 8 e.Device)
  have d6 : (natToLE 8 e.Device ++ e.Com).drop 8 = e.Com :=
    List.drop_left' (length_natToLE 8 e.Device)
  have tCom : e.Com.take 16 = e.Com := by rw [← h8, List.take_length]
  have hMode : decodeI32 (i32LE e.Mode) = e.Mode := decodeI32_i32LE e.Mode h1 h2
  have hPID : leVal (natToLE 4 e.PID) = e.PID :=
    leVal_natToLE 4 e.PID (by rw [h32]; exact h3)
  have hUID : leVal (natToLE 4 e.UID) = e.UID :=
    leVal_natToLE 4 e.UID (by rw [h32]; exact h4)
  have hSize : leVal (natToLE 4 e.Size) = e.Size :=
    leVal_natToLE 4 e.Size (by rw [h32]; exact h5)
  have hInode : leVal (natToLE 8 e.Inode) = e.Inode :=
    leVal_natToLE 8 e.Inode (by rw [h64]; exact h6)
  have hDevice : leVal (natToLE 8 e.Device) = e.Device :=
    leVal_natToLE 8 e.Device (by rw [h64]; exact h7)
  unfold rawEvent.decode
  rw [if_neg (by omega)]
  simp only [t1, d1, t2, d2, t3, d3, t4, d4, t5, d5, t6, d6, tCom,
    hMode, hPID, hUID, hSize, hInode, hDevice]

/-- Witness for C4 at a concrete in-range event with a negative mode. -/
theorem rawEvent_encode_decode_roundtrip_witness :
    rawEvent.wf ⟨-5, 3, 4, 6, 1099511627776, 7, List.replicate 16 65⟩ ∧
    ((rawEvent.encode ⟨-5, 3, 4, 6, 1099511627776, 7, List.replicate 16 65⟩).length
        = 48 ∧
      rawEvent.decode
          (rawEvent.encode ⟨-5, 3, 4, 6, 1099511627776, 7, List.replicate 16 65⟩)
        = some ⟨-5, 3, 4, 6, 1099511627776, 7, List.replicate 16 65⟩) :=
  ⟨by decide,
    rawEvent_encode_decode_roundtrip
      ⟨-5, 3, 4, 6, 1099511627776, 7, List.replicate 16 65⟩ (by decide)⟩

/- ### C5: watch-table consistency -/

/-- C5 counterexample: adding the same path twice with different stat results
(the file was replaced between the two adds) leaves a `mapping` entry with no
matching `reverse` entry, so the two views are NOT mutually consistent for
every Add/Remove sequence. -/
theorem watchTable_views_inconsistent_cex :
    ¬ Consistent (runOps initFIM
      [WOp.add "p" (Except.ok ⟨0, 5⟩) true,
       WOp.add "p" (Except.ok ⟨0, 7⟩) true]) := by decide

theorem consistent_add_step (A : List (String × Nat)) (f : FIM) (name : String)
    (s : Stat_t) (updOk : Bool)
    (hC : Consistent f) (hsub : ∀ e2 ∈ f.reverse, e2 ∈ A)
    (hA : (name, s.Ino) ∈ A) (hP : Compat A) :
    Consistent (FIM.Add f name (Except.ok s) updOk).1 ∧
    ∀ e2 ∈ (FIM.Add f name (Except.ok s) updOk).1.reverse, e2 ∈ A := by
  cases updOk with
  | false => exact ⟨hC, hsub⟩
  | true =>
    have hstate : (FIM.Add f name (Except.ok s) true).1
        = ⟨storeAssoc s.Ino name f.mapping, storeAssoc name s.Ino f.reverse,
           if s.Ino ∈ f.kernel then f.kernel else s.Ino :: f.kernel⟩ := rfl
    rw [hstate]
    refine ⟨⟨?_, ?_⟩, ?_⟩
    · intro e2 he2
      rw [mem_storeAssoc] at he2
      rcases he2 with rfl | ⟨hmem, hne⟩
      · exact loadAssoc_storeAssoc_self name s.Ino f.reverse
      · have hload : loadAssoc e2.2 f.reverse = some e2.1 := hC.1 e2 hmem
        have hmemR : (e2.2, e2.1) ∈ f.reverse := loadAssoc_mem hload
        have hA2 : (e2.2, e2.1) ∈ A := hsub _ hmemR
        have hne2 : e2.2 ≠ name := by
          intro hEq
          apply hne
          have hkeys := (hP _ hA2 _ hA).mp (by simpa using hEq)
          simpa using hkeys
        rw [loadAssoc_storeAssoc_ne hne2]
        exact hload
    · intro e2 he2
      rw [mem_storeAssoc] at he2
      rcases he2 with rfl | ⟨hmem, hne⟩
      · exact loadAssoc_storeAssoc_self s.Ino name f.mapping
      · have hload : loadAssoc e2.2 f.mapping = some e2.1 := hC.2 e2 hmem
        have hA2 : e2 ∈ A := hsub _ hmem
        have hne2 : e2.2 ≠ s.Ino := by
          intro hEq
          apply hne
          exact (hP _ hA2 _ hA).mpr (by simpa using hEq)
        rw [loadAssoc_storeAssoc_ne hne2]
        exact hload
    · intro e2 he2
      rw [mem_storeAssoc] at he2
      rcases he2 with rfl | ⟨hmem, _⟩
      · exact hA
      · exact hsub _ hmem

theorem consistent_remove_step (A : List (String × Nat)) (f : FIM)
    (name : String) (delOk : Bool)
    (hC : Consistent f) (hsub : ∀ e2 ∈ f.reverse, e2 ∈ A) (hP : Compat A) :
    Consistent (FIM.Remove f name delOk).1 ∧
    ∀ e2 ∈ (FIM.Remove f name delOk).1.reverse, e2 ∈ A := by
  cases hload : loadAssoc name f.reverse with
  | none =>
    have hstate : (FIM.Remove f name delOk).1 = f := by
      unfold FIM.Remove
      rw [hload]
    rw [hstate]
    exact ⟨hC, hsub⟩
  | some K =>
    cases delOk with
    | false =>
      have hstate : (FIM.Remove f name false).1 = f := by
        unfold FIM.Remove
        rw [hload]
        rfl
      rw [hstate]
      exact ⟨hC, hsub⟩
    | true =>
      have hstate : (FIM.Remove f name true).1
          = ⟨deleteAssoc K f.mapping, deleteAssoc name f.reverse,
             f.kernel.filter (fun k => k ≠ K)⟩ := by
        unfold FIM.Remove
        rw [hload]
        rfl
      rw [hstate]
      have hKmem : (name, K) ∈ f.reverse := loadAssoc_mem hload
      have hKA : (name, K) ∈ A := hsub _ hKmem
      refine ⟨⟨?_, ?_⟩, ?_⟩
      · intro e2 he2
        rw [mem_deleteAssoc] at he2
        obtain ⟨hmem, hne⟩ := he2
        have hld : loadAssoc e2.2 f.reverse = some e2.1 := hC.1 e2 hmem
        have hne2 : e2.2 ≠ name := by
          intro hEq
          rw [hEq] at hld
          have h3 := hld.symm.trans hload
          exact hne (Option.some.inj h3)
        rw [loadAssoc_deleteAssoc_ne hne2]
        exact hld
      · intro e2 he2
        rw [mem_deleteAssoc] at he2
        obtain ⟨hmem, hne⟩ := he2
        have hld : loadAssoc e2.2 f.mapping = some e2.1 := hC.2 e2 hmem
        have hA2 : e2 ∈ A := hsub _ hmem
        have hne2 : e2.2 ≠ K := by
          intro hEq
          apply hne
          exact (hP _ hA2 _ hKA).mpr (by simpa using hEq)
        rw [loadAssoc_deleteAssoc_ne hne2]
        exact hld
      · intro e2 he2
        rw [mem_deleteAssoc] at he2
        exact hsub _ he2.1

theorem runOps_consistent_aux (A : List (String × Nat)) :
    ∀ (ops : List WOp) (f : FIM), Consistent f →
      (∀ e2 ∈ f.reverse, e2 ∈ A) → (∀ pr ∈ addPairs ops, pr ∈ A) → Compat A →
      Consistent (runOps f ops) ∧ ∀ e2 ∈ (runOps f ops).reverse, e2 ∈ A := by
  intro ops
  induction ops with
  | nil => intro f hC hsub _ _; exact ⟨hC, hsub⟩
  | cons op rest ih =>
    intro f hC hsub hadd hP
    cases op with
    | add name statRes updOk =>
      cases statRes with
      | error errno =>
        exact ih f hC hsub hadd hP
      | ok s =>
        have hA : (name, s.Ino) ∈ A := hadd _ (List.mem_cons_self _ _)
        obtain ⟨hC2, hsub2⟩ := consistent_add_step A f name s updOk hC hsub hA hP
        exact ih _ hC2 hsub2 (fun pr hpr => hadd pr (List.mem_cons_of_mem _ hpr)) hP
    | remove name delOk =>
      obtain ⟨hC2, hsub2⟩ := consistent_remove_step A f name delOk hC hsub hP
      exact ih _ hC2 hsub2 hadd hP

/-- C5 (amended): for every Add/Remove sequence whose successful adds draw
their (path, key) pairs from one compatible assignment `A` (same path ⇒ same
key and distinct paths ⇒ distinct keys — i.e. stat results are stable and
inode-collision-free), the two views stay mutually consistent; and after any
successful `Remove p`, the key that `reverse` held for `p` no longer resolves
to any path in `mapping`. -/
theorem watchTable_consistency_and_remove_clears
    (A : List (String × Nat)) (f : FIM) (ops : List WOp)
    (hC : Consistent f) (hsub : ∀ e2 ∈ f.reverse, e2 ∈ A)
    (hadd : ∀ pr ∈ addPairs ops, pr ∈ A) (hP : Compat A) :
    Consistent (runOps f ops) ∧
    (∀ (p : String) (K : Nat) (d : Bool) (g : FIM),
      loadAssoc p f.reverse = some K →
      FIM.Remove f p d = (g, Except.ok ()) →
      loadAssoc K g.mapping = none) := by
  refine ⟨(runOps_consistent_aux A ops f hC hsub hadd hP).1, ?_⟩
  intro p K d g hload hrem
  cases d with
  | false =>
    unfold FIM.Remove at hrem
    rw [hload] at hrem
    simp at hrem
  | true =>
    unfold FIM.Remove at hrem
    rw [hload] at hrem
    have hg : g = ⟨deleteAssoc K f.mapping, deleteAssoc p f.reverse,
        f.kernel.filter (fun k => k ≠ K)⟩ :=
      (congrArg Prod.fst hrem).symm
    rw [hg]
    exact loadAssoc_deleteAssoc_self K f.mapping

/-- Witness for C5's amended theorem: a table watching "p" under the
assignment [("p", 5)], then removing "p". -/
theorem watchTable_consistency_witness :
    Consistent (⟨[(5, "p")], [("p", 5)], [5]⟩ : FIM) ∧
    (∀ e2 ∈ FIM.reverse ⟨[(5, "p")], [("p", 5)], [5]⟩, e2 ∈ [("p", 5)]) ∧
    (∀ pr ∈ addPairs [WOp.remove "p" true], pr ∈ [("p", 5)]) ∧
    Compat [("p", 5)] ∧
    (Consistent (runOps ⟨[(5, "p")], [("p", 5)], [5]⟩ [WOp.remove "p" true]) ∧
      (∀ (p : String) (K : Nat) (d : Bool) (g : FIM),
        loadAssoc p (FIM.reverse ⟨[(5, "p")], [("p", 5)], [5]⟩) = some K →
        FIM.Remove ⟨[(5, "p")], [("p", 5)], [5]⟩ p d = (g, Except.ok ()) →
        loadAssoc K g.mapping = none)) :=
  ⟨by decide, by decide, by decide, by decide,
    watchTable_consistency_and_remove_clears [("p", 5)]
      ⟨[(5, "p")], [("p", 5)], [5]⟩ [WOp.remove "p" true]
      (by decide) (by decide) (by decide) (by decide)⟩
